import Mathlib

/-!
Verification model of the TFLite-Micro convolution kernels of this
repository (`conv.cc`, `depthwise_conv.cc`, `data_capture.h`).

The dispatch layers (`Eval` in both kernel files) and the data-capture
debug block are embedded directly from the source.  The typed numeric
kernels (`reference_integer_ops::ConvPerChannel` and the int4 weight
unpacker) are declared in headers that are not part of this repository;
they are modelled from the specification, as marked on each definition.
-/

/-- Element representation tags of `TfLiteType` restricted to the ones the
two kernel files mention. -/
inductive TfLiteType where
  | float32
  | int4
  | int8
  | int16
  | int32
  | int64
  deriving DecidableEq, Fintype, Repr

/-- The five typed computation paths of the standard-convolution `Eval`
switch in `conv.cc`. -/
inductive ConvPath where
  | floatPath
  | int16Int32Path
  | int16Int64Path
  | int8Int4Path
  | int8Int8Path
  deriving DecidableEq, Fintype, Repr

/-- The three typed computation paths of the depthwise `Eval` switch in
`depthwise_conv.cc`. -/
inductive DwPath where
  | dwFloatPath
  | dwInt8Path
  | dwInt4Path
  deriving DecidableEq, Fintype, Repr

/-- Outcome of the dispatch portion of an `Eval` call: a selected typed
path, an error return (`kTfLiteError`), or an undefined null-pointer
dereference (reading `bias->type` when `bias == nullptr`). -/
inductive ConvDispatch where
  | ok (p : ConvPath)
  | err
  | nullDeref
  deriving DecidableEq, Fintype, Repr

/-- Outcome of the depthwise dispatch. -/
inductive DwDispatch where
  | ok (p : DwPath)
  | err
  deriving DecidableEq, Fintype, Repr

/-- Dispatch logic of `Eval` in `conv.cc`, lines 105-207, in source order:
first `TF_LITE_ENSURE_EQ(input->type, output->type)`, then the hybrid
check (`input->type == filter->type`, or int16 input with int8 filter, or
int8 input with int4 filter), then the switch on `input->type`; the int16
case switches on `bias->type` without a null check, the int8 case switches
on `filter->type`, and the float32 case inspects nothing further.
`biasT = none` models an absent bias tensor (`NumInputs(node) != 3`). -/
def convEvalDispatch (inputT filterT : TfLiteType) (biasT : Option TfLiteType)
    (outputT : TfLiteType) : ConvDispatch :=
  if inputT ≠ outputT then .err
  else if ¬ (inputT = filterT ∨
      (inputT = .int16 ∧ filterT = .int8) ∨
      (inputT = .int8 ∧ filterT = .int4)) then .err
  else
    match inputT with
    | .float32 => .ok .floatPath
    | .int16 =>
      match biasT with
      | none => .nullDeref
      | some .int32 => .ok .int16Int32Path
      | some .int64 => .ok .int16Int64Path
      | some _ => .err
    | .int8 =>
      match filterT with
      | .int4 => .ok .int8Int4Path
      | .int8 => .ok .int8Int8Path
      | _ => .err
    | _ => .err

/-- Dispatch logic of `Eval` in `depthwise_conv.cc`, lines 98-155: a single
switch on `input->type` (no input/output comparison, no hybrid check, no
bias inspection); the int8 case switches on `filter->type`.  The output
representation argument is accepted but never read, as in the source. -/
def dwEvalDispatch (inputT filterT : TfLiteType) (biasT : Option TfLiteType)
    (outputT : TfLiteType) : DwDispatch :=
  match inputT with
  | .float32 => .ok .dwFloatPath
  | .int8 =>
    match filterT with
    | .int8 => .ok .dwInt8Path
    | .int4 => .ok .dwInt4Path
    | _ => .err
  | _ => .err

/-- The supported (input, filter, bias) representation triples exactly as
the specification lists them: {float32, float32, float32|absent};
{int8, int8, int32|absent}; {int8, int4-packed, int32|absent};
{int16, int8, int32|absent}; {int16, int8, int64|absent}. -/
def supportedTripleSpec : TfLiteType → TfLiteType → Option TfLiteType → Bool
  | .float32, .float32, none => true
  | .float32, .float32, some .float32 => true
  | .int8, .int8, none => true
  | .int8, .int8, some .int32 => true
  | .int8, .int4, none => true
  | .int8, .int4, some .int32 => true
  | .int16, .int8, none => true
  | .int16, .int8, some .int32 => true
  | .int16, .int8, some .int64 => true
  | _, _, _ => false

/-- Result of a whole standard-convolution `Eval` call: the dispatch
outcome together with the output buffer after the call.  `runPath`
abstracts the five typed kernels (each writes the full output buffer);
every error return in the source happens before any kernel call, so the
buffer is returned unchanged on `err` and on the null dereference no
defined write has happened either. -/
def convEvalRun (inputT filterT : TfLiteType) (biasT : Option TfLiteType)
    (outputT : TfLiteType) (runPath : ConvPath → List ℤ) (out0 : List ℤ) :
    ConvDispatch × List ℤ :=
  match convEvalDispatch inputT filterT biasT outputT with
  | .ok p => (.ok p, runPath p)
  | .err => (.err, out0)
  | .nullDeref => (.nullDeref, out0)

/-- Result of a whole depthwise `Eval` call, analogous to `convEvalRun`:
`runPath` abstracts the three typed depthwise kernels, and both error
returns of the depthwise switch happen before any kernel call, so the
output buffer is returned unchanged on `err`. -/
def dwEvalRun (inputT filterT : TfLiteType) (biasT : Option TfLiteType)
    (outputT : TfLiteType) (runPath : DwPath → List ℤ) (out0 : List ℤ) :
    DwDispatch × List ℤ :=
  match dwEvalDispatch inputT filterT biasT outputT with
  | .ok p => (.ok p, runPath p)
  | .err => (.err, out0)

/-- Shape facts of one conv layer that the data-capture debug block of
`conv.cc` reads: filter `Dims(1)`/`Dims(2)` and input/output `Dims(3)`. -/
structure ConvLayerShape where
  filterHeight : ℕ
  filterWidth : ℕ
  inputDepth : ℕ
  outputDepth : ℕ
  deriving DecidableEq, Repr

/-- `is_1x1_kernel` of the debug block (conv.cc line 62). -/
def is_1x1_kernel (s : ConvLayerShape) : Bool :=
  s.filterHeight == 1 && s.filterWidth == 1

/-- `is_expansion` of the debug block (conv.cc line 63). -/
def is_expansion (s : ConvLayerShape) : Bool :=
  is_1x1_kernel s && decide (s.inputDepth < s.outputDepth)

/-- `is_projection` of the debug block (conv.cc line 64). -/
def is_projection (s : ConvLayerShape) : Bool :=
  is_1x1_kernel s && decide (s.outputDepth < s.inputDepth)

/-- `is_target_layer` of the debug block (conv.cc line 67): an expansion
layer seen while the static `conv_bn_counter` equals 4. -/
def is_target_layer (s : ConvLayerShape) (counter : ℕ) : Bool :=
  is_expansion s && counter == 4

/-- Update of the static `conv_bn_counter` after one `Eval` call
(conv.cc lines 220-222): incremented exactly on 1×1 projection layers. -/
def convBnCounterNext (s : ConvLayerShape) (counter : ℕ) : ℕ :=
  if is_projection s then counter + 1 else counter

/-- Flat buffer indices the debug block reads from the input tensor and
from the filter tensor (conv.cc lines 75-77 and 83-85): when the dump
fires, the two `for (int i = 0; i < 16; ++i)` loops read elements 0..15
of each buffer unconditionally; otherwise nothing is read. -/
def debugReadIndices (s : ConvLayerShape) (counter : ℕ)
    (hasPrinted : Bool) : List ℕ :=
  if is_target_layer s counter && !hasPrinted then List.range 16 else []

/-- Rounding to the nearest integer with ties away from zero, on ℚ: the
single documented rounding rule of the specification's requantization
stage. -/
def roundHalfAwayQ (q : ℚ) : ℤ :=
  if 0 ≤ q then ⌊q + 1 / 2⌋ else -⌊-q + 1 / 2⌋

/-- Division of an integer by `2 ^ k` rounding to nearest, ties away from
zero: the value of an arithmetic right shift by `k` with the rounding
nudge `2 ^ k / 2` added first, applied to `|x|` and the sign restored. -/
def roundDivPow2 (x : ℤ) (k : ℕ) : ℤ :=
  if 0 ≤ x then (x + 2 ^ k / 2) / 2 ^ k
  else -((-x + 2 ^ k / 2) / 2 ^ k)

/-- Modelled from the spec: the fixed-point requantization multiply of
§4.4 (the body of `MultiplyByQuantizedMultiplier`, declared in a TFLM
header outside this repository).  The accumulator is widened to a product
with the 32-bit fixed-point multiplier and then shifted right with
rounding; the multiplier's fixed-point scale contributes a fixed extra
right shift of 31, and `shift` moves the point further: a nonnegative
`shift` multiplies by `2 ^ shift` before the rounding shift, a negative
one deepens the rounding shift to `31 - shift`. -/
def multiplyByQuantizedMultiplier (acc mult shift : ℤ) : ℤ :=
  if 0 ≤ shift then roundDivPow2 (acc * mult * 2 ^ shift.toNat) 31
  else roundDivPow2 (acc * mult) (31 + (-shift).toNat)

/-- Convolution parameters of one integer invocation: strides, dilations,
explicit padding offsets, input bounds, receptive-field extents, zero
points and activation clamp bounds (spec §3, Convolution Parameters and
Per-Channel Quantization Data). -/
structure ConvQParams where
  strideH : ℤ
  strideW : ℤ
  dilationH : ℤ
  dilationW : ℤ
  padH : ℤ
  padW : ℤ
  inputH : ℕ
  inputW : ℕ
  inputC : ℕ
  filterH : ℕ
  filterW : ℕ
  inputZeroPoint : ℤ
  outputZeroPoint : ℤ
  actMin : ℤ
  actMax : ℤ

/-- Modelled from the spec: the standard-convolution accumulator of §4.3
(the inner loops of `reference_integer_ops::ConvPerChannel`, declared in a
TFLM header outside this repository).  For output position
(b, oy, ox, oc), sum over (filter row, filter column, input channel) of
(input − input zero point) × filter weight, a receptive-field position
outside the input bounds contributing exactly zero; then the bias for
`oc` is added when a bias is present.  Tensors are accessed by index
function; the filter is laid out [out channel, row, column, in channel]. -/
def convAccumulator (p : ConvQParams) (input : ℕ → ℕ → ℕ → ℕ → ℤ)
    (filter : ℕ → ℕ → ℕ → ℕ → ℤ) (bias : Option (ℕ → ℤ))
    (b oy ox oc : ℕ) : ℤ :=
  ((List.range p.filterH).map (fun (fy : ℕ) =>
    ((List.range p.filterW).map (fun (fx : ℕ) =>
      ((List.range p.inputC).map (fun (ic : ℕ) =>
        let iy : ℤ := p.strideH * oy + p.dilationH * fy - p.padH
        let ix : ℤ := p.strideW * ox + p.dilationW * fx - p.padW
        if 0 ≤ iy ∧ iy < p.inputH ∧ 0 ≤ ix ∧ ix < p.inputW then
          (input b iy.toNat ix.toNat ic - p.inputZeroPoint) * filter oc fy fx ic
        else 0)).sum)).sum)).sum
  + match bias with
    | some bs => bs oc
    | none => 0

/-- The same accumulator written with `Finset.range` sums, following the
wording of spec §4.3 directly; compared against `convAccumulator` in the
refinement theorem for the accumulation claim. -/
def convAccumulatorSpec (p : ConvQParams) (input : ℕ → ℕ → ℕ → ℕ → ℤ)
    (filter : ℕ → ℕ → ℕ → ℕ → ℤ) (bias : Option (ℕ → ℤ))
    (b oy ox oc : ℕ) : ℤ :=
  (Finset.range p.filterH).sum (fun (fy : ℕ) =>
    (Finset.range p.filterW).sum (fun (fx : ℕ) =>
      (Finset.range p.inputC).sum (fun (ic : ℕ) =>
        if 0 ≤ p.strideH * oy + p.dilationH * fy - p.padH ∧
            p.strideH * oy + p.dilationH * fy - p.padH < p.inputH ∧
            0 ≤ p.strideW * ox + p.dilationW * fx - p.padW ∧
            p.strideW * ox + p.dilationW * fx - p.padW < p.inputW then
          (input b (p.strideH * oy + p.dilationH * fy - p.padH).toNat
              (p.strideW * ox + p.dilationW * fx - p.padW).toNat ic
            - p.inputZeroPoint) * filter oc fy fx ic
        else 0)))
  + match bias with
    | some bs => bs oc
    | none => 0

/-- Saturation to the signed 8-bit numeric range [-128, 127]. -/
def int8Clamp (x : ℤ) : ℤ :=
  min 127 (max (-128) x)

/-- Modelled from the spec: the requantization stage of §4.4 for the
int8 output path: fixed-point multiply/shift, output zero-point offset,
clamp to the activation bounds, clamp to the output representation's
numeric range. -/
def requantizeInt8 (p : ConvQParams) (acc mult shift : ℤ) : ℤ :=
  int8Clamp (min p.actMax (max p.actMin
    (multiplyByQuantizedMultiplier acc mult shift + p.outputZeroPoint)))

/-- Modelled from the spec: the int8 output element of
`reference_integer_ops::ConvPerChannel` at position (b, oy, ox, oc):
the accumulator of §4.3 requantized with output channel `oc`'s own
multiplier/shift pair from the per-channel table (§4.4). -/
def convPerChannelOut (p : ConvQParams) (mult shift : ℕ → ℤ)
    (input filter : ℕ → ℕ → ℕ → ℕ → ℤ) (bias : Option (ℕ → ℤ))
    (b oy ox oc : ℕ) : ℤ :=
  requantizeInt8 p (convAccumulator p input filter bias b oy ox oc)
    (mult oc) (shift oc)

/-- Sign extension of a 4-bit two's-complement nibble (0..15) to ℤ. -/
def signExtend4 (n : ℕ) : ℤ :=
  if n < 8 then (n : ℤ) else (n : ℤ) - 16

/-- Modelled from the spec: the low-nibble weight of a packed 4-bit byte
(§4.2, weight unpacker): the first element of the pair in flat order,
sign-extended to a signed 8-bit value. -/
def unpackLow (b : ℕ) : ℤ :=
  signExtend4 (b % 16)

/-- Modelled from the spec: the high-nibble weight of a packed 4-bit byte
(§4.2): the second element of the pair in flat order, sign-extended. -/
def unpackHigh (b : ℕ) : ℤ :=
  signExtend4 (b / 16 % 16)

/-- Packing of two signed 4-bit values (each in [-8, 7]) back into one
byte: low nibble from the first, high nibble from the second, two's
complement. -/
def packNibbles (lo hi : ℤ) : ℕ :=
  (lo % 16).toNat + 16 * (hi % 16).toNat

/-- Parameters of the specification's identity-scale scenario: input
1×1×1×16, unit strides and dilations, no padding, input zero point 0,
output zero point 0, activation bounds the full int8 range. -/
def c4Params : ConvQParams :=
  ⟨1, 1, 1, 1, 0, 0, 1, 1, 16, 1, 1, 0, 0, -128, 127⟩

/-- Input of the scenario: every element has value 5. -/
def c4Input : ℕ → ℕ → ℕ → ℕ → ℤ := fun _ _ _ _ => 5

/-- Filter of the scenario: 1×1×16 weights per output channel, all 1. -/
def c4Filter : ℕ → ℕ → ℕ → ℕ → ℤ := fun _ _ _ _ => 1

/-- Bias of the scenario: present, all zero. -/
def c4Bias : Option (ℕ → ℤ) := some fun _ => 0

/-- Per-channel multiplier of the scenario: 0x40000000 (fixed-point 0.5)
for every channel. -/
def c4Mult : ℕ → ℤ := fun _ => 1073741824

/-- Per-channel shift of the scenario: 0 for every channel. -/
def c4Shift : ℕ → ℤ := fun _ => 0

/-- Sum of a function mapped over `List.range` agrees with the
corresponding `Finset.range` sum. -/
theorem listRangeMapSum (n : ℕ) (f : ℕ → ℤ) :
    ((List.range n).map f).sum = (Finset.range n).sum f := by
  induction n with
  | zero => simp
  | succ m ih =>
      rw [List.range_succ, List.map_append, List.sum_append,
        Finset.sum_range_succ, ih]
      simp

/-- A mapped `List.range` sum of an everywhere-zero function is zero. -/
theorem sum_range_map_zero (n : ℕ) (f : ℕ → ℤ) (h : ∀ i, f i = 0) :
    ((List.range n).map f).sum = 0 := by
  apply List.sum_eq_zero
  intro x hx
  rw [List.mem_map] at hx
  obtain ⟨i, _, rfl⟩ := hx
  exact h i

/-- The nudged integer shift computes the floor of the half-offset
rational quotient. -/
theorem roundDivCore (y : ℤ) (k : ℕ) :
    (y + 2 ^ k / 2) / 2 ^ k = ⌊(y : ℚ) / 2 ^ k + 1 / 2⌋ := by
  have harg : (y : ℚ) / 2 ^ k + 1 / 2
      = ((2 * y + 2 ^ k : ℤ) : ℚ) / ((2 ^ (k + 1) : ℕ) : ℚ) := by
    have h2 : ((2 ^ (k + 1) : ℕ) : ℚ) = 2 ^ (k + 1) := by push_cast; rfl
    rw [h2, pow_succ]
    have hk : (0 : ℚ) < 2 ^ k := by positivity
    push_cast
    field_simp
    ring
  rw [harg, Rat.floor_intCast_div_natCast]
  have hc : ((2 ^ (k + 1) : ℕ) : ℤ) = 2 ^ (k + 1) := by push_cast; rfl
  rw [hc]
  cases k with
  | zero => norm_num; omega
  | succ s =>
      have h1 : (2 : ℤ) ^ (s + 1) / 2 = 2 ^ s := by
        rw [pow_succ]
        exact Int.mul_ediv_cancel _ (by norm_num)
      have h2 : 2 * y + 2 ^ (s + 1) = 2 * (y + 2 ^ s) := by rw [pow_succ]; ring
      have h3 : (2 : ℤ) ^ (s + 1 + 1) = 2 * 2 ^ (s + 1) := by rw [pow_succ]; ring
      rw [h1, h2, h3, Int.mul_ediv_mul_of_pos _ _ (by norm_num : (0 : ℤ) < 2)]

/-- The nudged integer shift is exactly rounding division by `2 ^ k` with
ties away from zero. -/
theorem roundDivPow2_eq (x : ℤ) (k : ℕ) :
    roundDivPow2 x k = roundHalfAwayQ ((x : ℚ) / 2 ^ k) := by
  unfold roundDivPow2 roundHalfAwayQ
  by_cases hx : 0 ≤ x
  · rw [if_pos hx, if_pos (div_nonneg (by exact_mod_cast hx) (by positivity)),
      roundDivCore]
  · push_neg at hx
    have hq : (x : ℚ) / 2 ^ k < 0 :=
      div_neg_of_neg_of_pos (by exact_mod_cast hx) (by positivity)
    rw [if_neg (not_le.mpr hx), if_neg (not_le.mpr hq)]
    have hneg : -((x : ℚ) / 2 ^ k) = ((-x : ℤ) : ℚ) / 2 ^ k := by push_cast; ring
    rw [hneg, ← roundDivCore (-x) k]

/-- The fixed-point multiply/shift equals rounding the exact rational value
accumulator × multiplier / 2^31 × 2^shift to the nearest integer with ties
away from zero. -/
theorem multiplyByQuantizedMultiplier_eq (acc mult shift : ℤ) :
    multiplyByQuantizedMultiplier acc mult shift =
      roundHalfAwayQ ((acc : ℚ) * (mult : ℚ) / 2 ^ 31 * (2 : ℚ) ^ shift) := by
  unfold multiplyByQuantizedMultiplier
  by_cases hs : 0 ≤ shift
  · rw [if_pos hs, roundDivPow2_eq]
    congr 1
    have hsn : ((shift.toNat : ℤ)) = shift := Int.toNat_of_nonneg hs
    have hz : (2 : ℚ) ^ shift = (2 : ℚ) ^ shift.toNat := by
      rw [← zpow_natCast (2 : ℚ) shift.toNat, hsn]
    rw [hz]
    push_cast
    ring
  · push_neg at hs
    rw [if_neg (not_le.mpr hs), roundDivPow2_eq]
    congr 1
    have ht : (((-shift).toNat : ℤ)) = -shift := Int.toNat_of_nonneg (by omega)
    have hz : (2 : ℚ) ^ shift = ((2 : ℚ) ^ (-shift).toNat)⁻¹ := by
      rw [← zpow_natCast (2 : ℚ) (-shift).toNat, ht, zpow_neg]
      simp
    rw [hz, pow_add]
    push_cast
    ring

/-- Requantizing a zero accumulator gives zero for every multiplier and
shift. -/
theorem multiplyByQuantizedMultiplier_zero (mult shift : ℤ) :
    multiplyByQuantizedMultiplier 0 mult shift = 0 := by
  have hr : ∀ k : ℕ, roundDivPow2 0 k = 0 := by
    intro k
    unfold roundDivPow2
    rw [if_pos le_rfl, zero_add]
    apply Int.ediv_eq_zero_of_lt
    · exact Int.ediv_nonneg (by positivity) (by norm_num)
    · cases k with
      | zero => decide
      | succ s =>
          have h1 : (2 : ℤ) ^ (s + 1) / 2 = 2 ^ s := by
            rw [pow_succ]
            exact Int.mul_ediv_cancel _ (by norm_num)
          have h2 : (0 : ℤ) < 2 ^ s := by positivity
          rw [h1, pow_succ]
          nlinarith
  unfold multiplyByQuantizedMultiplier
  by_cases hs : 0 ≤ shift
  · rw [if_pos hs, zero_mul, zero_mul, hr]
  · rw [if_neg hs, zero_mul, hr]

/-- C1 (counterexample): the triple (int8 input, int8 filter, int64 bias)
is outside the specification's supported set, yet the standard-convolution
dispatch selects the int8×int8 typed path instead of returning an error:
the int8 path never inspects the bias representation. -/
theorem conv_dispatch_accepts_unsupported_bias :
    supportedTripleSpec .int8 .int8 (some .int64) = false ∧
    convEvalDispatch .int8 .int8 (some .int64) .int8 = .ok .int8Int8Path :=
  ⟨rfl, rfl⟩

/-- C1 (amended): both dispatch layers select a typed path exactly on the
following combinations, and error otherwise (with the int16/absent-bias
null dereference apart).  Standard convolution selects a path iff the
output representation equals the input representation and the pair is
(float32, float32), (int8, int8), (int8, int4), or int16 input with an
int16 or int8 filter and a present int32 or int64 bias; bias
representation is not inspected on the float32 and int8 paths.  Depthwise
convolution selects a path iff the input is float32 (any filter, any
bias) or int8 with an int8 or int4 filter; it never inspects the output
or bias representations, and it has no int16 path. -/
theorem dispatch_supported_paths :
    (∀ i f : TfLiteType, ∀ b : Option TfLiteType, ∀ o : TfLiteType,
      (∃ p, convEvalDispatch i f b o = .ok p) ↔
        (o == i &&
          ((i == TfLiteType.float32 && f == TfLiteType.float32) ||
           (i == TfLiteType.int8 &&
             (f == TfLiteType.int8 || f == TfLiteType.int4)) ||
           (i == TfLiteType.int16 &&
             (f == TfLiteType.int16 || f == TfLiteType.int8) &&
             (b == some TfLiteType.int32 ||
              b == some TfLiteType.int64)))) = true) ∧
    (∀ i f : TfLiteType, ∀ b : Option TfLiteType, ∀ o : TfLiteType,
      (∃ p, dwEvalDispatch i f b o = .ok p) ↔
        (i == TfLiteType.float32 ||
         (i == TfLiteType.int8 &&
           (f == TfLiteType.int8 || f == TfLiteType.int4))) = true) := by
  decide

/-- C5 (counterexample): the depthwise dispatch computes the int8 path
for an int8 input with a float32 output: mixed input/output
representations are not rejected by the depthwise `Eval`. -/
theorem dw_dispatch_accepts_mixed_io :
    dwEvalDispatch .int8 .int8 (some .int32) .float32 = .ok .dwInt8Path :=
  rfl

/-- C5 (amended): the standard-convolution `Eval` rejects any invocation
whose input and output representations differ before selecting a path;
the depthwise `Eval` performs no such check and its dispatch result never
depends on the output representation. -/
theorem conv_rejects_mixed_io_dw_ignores_output :
    (∀ i f : TfLiteType, ∀ b : Option TfLiteType, ∀ o : TfLiteType,
      i ≠ o → convEvalDispatch i f b o = .err) ∧
    (∀ i f : TfLiteType, ∀ b : Option TfLiteType, ∀ o o' : TfLiteType,
      dwEvalDispatch i f b o = dwEvalDispatch i f b o') := by
  constructor
  · intro i f b o h
    unfold convEvalDispatch
    rw [if_pos h]
  · intro i f b o o'
    rfl

/-- Witness for the amended C5 at a concrete mixed-type invocation. -/
theorem conv_rejects_mixed_io_witness :
    convEvalDispatch .int8 .int8 none .float32 = .err :=
  conv_rejects_mixed_io_dw_ignores_output.1 .int8 .int8 none .float32 (by decide)

/-- C6 (counterexample): the unsupported triple (int8, int8, int64 bias)
does not produce an error; the int8 kernel runs and the output buffer is
overwritten. -/
theorem conv_eval_unsupported_triple_writes :
    supportedTripleSpec .int8 .int8 (some .int64) = false ∧
    convEvalRun .int8 .int8 (some .int64) .int8 (fun _ => [99]) [0] =
      (.ok .int8Int8Path, [99]) :=
  ⟨rfl, rfl⟩

/-- C6 (amended): whenever an invocation of either convolution variant
returns the unsupported-type error, the output buffer is left completely
unchanged: every error return of both `Eval` functions happens before any
kernel call. -/
theorem eval_error_leaves_output :
    (∀ (i f : TfLiteType) (b : Option TfLiteType) (o : TfLiteType)
      (runPath : ConvPath → List ℤ) (out0 : List ℤ),
      (convEvalRun i f b o runPath out0).1 = .err →
      (convEvalRun i f b o runPath out0).2 = out0) ∧
    (∀ (i f : TfLiteType) (b : Option TfLiteType) (o : TfLiteType)
      (runPath : DwPath → List ℤ) (out0 : List ℤ),
      (dwEvalRun i f b o runPath out0).1 = .err →
      (dwEvalRun i f b o runPath out0).2 = out0) := by
  constructor
  · intro i f b o runPath out0 h
    unfold convEvalRun at h ⊢
    cases hd : convEvalDispatch i f b o <;> simp_all
  · intro i f b o runPath out0 h
    unfold dwEvalRun at h ⊢
    cases hd : dwEvalDispatch i f b o <;> simp_all

/-- Witness for the amended C6: a float32 input with int8 filter fails the
conv hybrid check, and an int16 input has no depthwise path; in both cases
the output buffer keeps its prior contents. -/
theorem eval_error_leaves_output_witness :
    (convEvalRun .float32 .int8 none .float32 (fun _ => [99]) [5]).2 = [5] ∧
    (dwEvalRun .int16 .int8 (some .int32) .int16 (fun _ => [99]) [7]).2 = [7] :=
  ⟨eval_error_leaves_output.1 .float32 .int8 none .float32
      (fun _ => [99]) [5] rfl,
    eval_error_leaves_output.2 .int16 .int8 (some .int32) .int16
      (fun _ => [99]) [7] rfl⟩

/-- C9: with an int16 input the standard-convolution dispatch switches on
`bias->type` before any null check, so the valid bias-absent state of the
data model reaches a null-tensor dereference instead of an error return. -/
theorem conv_int16_absent_bias_null_deref :
    convEvalDispatch .int16 .int8 none .int16 = .nullDeref ∧
    supportedTripleSpec .int16 .int8 none = true :=
  ⟨rfl, rfl⟩

/-- C10: when the debug trigger holds (a 1×1 expansion layer while the
static counter — incremented exactly on 1×1 projection layers — equals 4
and the dump has not fired yet), the debug block reads exactly the flat
indices 0..15 of both the input and the filter buffers, and those reads
are all within a buffer of `len` elements iff `len ≥ 16`. -/
theorem debug_dump_reads_first_16 (s : ConvLayerShape) (counter : ℕ)
    (h : is_target_layer s counter = true) :
    debugReadIndices s counter false = List.range 16 ∧
    (∀ len : ℕ, (∀ i ∈ debugReadIndices s counter false, i < len) ↔ 16 ≤ len) ∧
    (∀ c : ℕ, convBnCounterNext s c = c + 1 ↔ is_projection s = true) := by
  have hread : debugReadIndices s counter false = List.range 16 := by
    unfold debugReadIndices
    simp [h]
  refine ⟨hread, ?_, ?_⟩
  · intro len
    rw [hread]
    simp only [List.mem_range]
    constructor
    · intro hall
      by_contra hlt
      push_neg at hlt
      exact absurd (hall len (by omega)) (by omega)
    · intro hle i hi
      omega
  · intro c
    unfold convBnCounterNext
    by_cases hp : is_projection s
    · simp [hp]
    · simp [hp]

/-- Witness for C10 at the shape of a 16→96 channel 1×1 expansion layer
with the counter at 4. -/
theorem debug_dump_reads_first_16_witness :
    debugReadIndices ⟨1, 1, 16, 96⟩ 4 false = List.range 16 :=
  (debug_dump_reads_first_16 ⟨1, 1, 16, 96⟩ 4 (by decide)).1

/-- C2: for every integer-path invocation, output channel and accumulator
value, the requantized value written to the output equals the rational
formula of the claim: round the exact value
accumulator × multiplier(oc) / 2^31 × 2^shift(oc) to the nearest integer
with ties away from zero, add the output zero point, clamp to the
activation bounds, then clamp to the int8 numeric range — computed with
channel `oc`'s own multiplier/shift pair from the per-channel table. -/
theorem conv_requantization_per_channel (p : ConvQParams) (mult shift : ℕ → ℤ)
    (input filter : ℕ → ℕ → ℕ → ℕ → ℤ) (bias : Option (ℕ → ℤ))
    (b oy ox oc : ℕ) :
    convPerChannelOut p mult shift input filter bias b oy ox oc =
      int8Clamp (min p.actMax (max p.actMin
        (roundHalfAwayQ ((convAccumulator p input filter bias b oy ox oc : ℚ)
            * (mult oc : ℚ) / 2 ^ 31 * (2 : ℚ) ^ (shift oc))
          + p.outputZeroPoint))) := by
  unfold convPerChannelOut requantizeInt8
  rw [multiplyByQuantizedMultiplier_eq]

/-- C3: the standard-convolution accumulator equals the claim's triple sum
over (kernel row, kernel column, input channel) of
(input − input zero point) × filter weight, with a receptive-field
position outside the input bounds contributing exactly zero (not a
zero-point-adjusted value), plus the channel's bias when present; and
consequently the accumulator never depends on input values outside the
input bounds. -/
theorem conv_accumulator_matches_spec (p : ConvQParams)
    (input filter : ℕ → ℕ → ℕ → ℕ → ℤ) (bias : Option (ℕ → ℤ))
    (b oy ox oc : ℕ) :
    convAccumulator p input filter bias b oy ox oc =
      convAccumulatorSpec p input filter bias b oy ox oc ∧
    (∀ input2 : ℕ → ℕ → ℕ → ℕ → ℤ,
      (∀ bb y x c, y < p.inputH → x < p.inputW →
        input bb y x c = input2 bb y x c) →
      convAccumulator p input filter bias b oy ox oc =
        convAccumulator p input2 filter bias b oy ox oc) := by
  constructor
  · rfl
  · intro input2 h
    unfold convAccumulator
    refine congrArg₂ (· + ·) ?_ rfl
    rw [listRangeMapSum, listRangeMapSum]
    refine Finset.sum_congr rfl fun fy _ => ?_
    rw [listRangeMapSum, listRangeMapSum]
    refine Finset.sum_congr rfl fun fx _ => ?_
    rw [listRangeMapSum, listRangeMapSum]
    refine Finset.sum_congr rfl fun ic _ => ?_
    dsimp only
    split
    · next hc =>
        obtain ⟨h1, h2, h3, h4⟩ := hc
        rw [h b _ _ ic (by omega) (by omega)]
    · rfl

/-- Witness for C3: on the identity-scale scenario the accumulator ignores
an input that is altered to 77 everywhere outside the 1×1 input bounds. -/
theorem conv_accumulator_matches_spec_witness :
    convAccumulator c4Params c4Input c4Filter c4Bias 0 0 0 0 =
      convAccumulator c4Params
        (fun bb y x c => if y < 1 ∧ x < 1 then c4Input bb y x c else 77)
        c4Filter c4Bias 0 0 0 0 :=
  (conv_accumulator_matches_spec c4Params c4Input c4Filter c4Bias 0 0 0 0).2
    (fun bb y x c => if y < 1 ∧ x < 1 then c4Input bb y x c else 77)
    (fun bb y x c hy hx => by
      have hy0 : y = 0 := Nat.lt_one_iff.mp hy
      have hx0 : x = 0 := Nat.lt_one_iff.mp hx
      simp [hy0, hx0])

set_option maxRecDepth 100000 in
/-- C4 (counterexample): in the specification's scenario (input 1×1×1×16
all 5 with zero point 0, weights all 1, bias 0, multiplier 0x40000000,
shift 0, output zero point 0) the standard convolution accumulates
16 × 5 = 80 over the input channels and halves it to 40; the output value
is 40, not 2. -/
theorem c4_scenario_output_not_2 :
    convPerChannelOut c4Params c4Mult c4Shift c4Input c4Filter c4Bias 0 0 0 0
      = 40 ∧
    convPerChannelOut c4Params c4Mult c4Shift c4Input c4Filter c4Bias 0 0 0 0
      ≠ 2 := by
  have h : convPerChannelOut c4Params c4Mult c4Shift c4Input c4Filter c4Bias
      0 0 0 0 = 40 := by rfl
  exact ⟨h, by rw [h]; decide⟩

set_option maxRecDepth 100000 in
/-- C4 (amended): the scenario's invocation dispatches to the int8×int8
path and every output element (its 16 output channels at the single
output position) equals 40 = round(80 × 0.5). -/
theorem c4_scenario_amended :
    convEvalDispatch .int8 .int8 (some .int32) .int8 = .ok .int8Int8Path ∧
    ∀ oc : ℕ, oc < 16 →
      convPerChannelOut c4Params c4Mult c4Shift c4Input c4Filter c4Bias
        0 0 0 oc = 40 := by
  exact ⟨rfl, fun oc _ => rfl⟩

/-- Witness for the amended C4 at output channel 7. -/
theorem c4_scenario_amended_witness :
    convPerChannelOut c4Params c4Mult c4Shift c4Input c4Filter c4Bias
      0 0 0 7 = 40 :=
  c4_scenario_amended.2 7 (by norm_num)

/-- C7: an integer invocation whose filter weights are all zero, bias is
absent or all zero, and every input value equals the input zero point
produces the output zero point at every output position, for every
per-channel multiplier/shift table; validity of the configuration means
the output zero point lies within the activation bounds and the int8
range. -/
theorem conv_zero_invocation_outputs_zero_point (p : ConvQParams)
    (mult shift : ℕ → ℤ) (input filter : ℕ → ℕ → ℕ → ℕ → ℤ)
    (bias : Option (ℕ → ℤ))
    (hin : ∀ b y x c, input b y x c = p.inputZeroPoint)
    (hfil : ∀ oc fy fx ic, filter oc fy fx ic = 0)
    (hbias : bias = none ∨ bias = some fun _ => 0)
    (hmin : p.actMin ≤ p.outputZeroPoint) (hmax : p.outputZeroPoint ≤ p.actMax)
    (hlo : -128 ≤ p.outputZeroPoint) (hhi : p.outputZeroPoint ≤ 127)
    (b oy ox oc : ℕ) :
    convPerChannelOut p mult shift input filter bias b oy ox oc
      = p.outputZeroPoint := by
  have hacc : convAccumulator p input filter bias b oy ox oc = 0 := by
    unfold convAccumulator
    rcases hbias with h | h <;> subst h <;>
      rw [sum_range_map_zero _ _ (fun fy => sum_range_map_zero _ _
        (fun fx => sum_range_map_zero _ _ (fun ic => by simp [hfil])))] <;>
      simp
  unfold convPerChannelOut requantizeInt8
  rw [hacc, multiplyByQuantizedMultiplier_zero, zero_add,
    max_eq_right hmin, min_eq_right hmax]
  unfold int8Clamp
  rw [max_eq_right hlo, min_eq_right hhi]

/-- Witness for C7: a 1×1×1×1 invocation with input zero point 7, output
zero point 3, activation bounds [-10, 20], zero filter and absent bias
yields output 3 for the arbitrary multiplier 123 and shift -2. -/
theorem conv_zero_invocation_witness :
    convPerChannelOut ⟨1, 1, 1, 1, 0, 0, 1, 1, 1, 1, 1, 7, 3, -10, 20⟩
      (fun _ => 123) (fun _ => -2) (fun _ _ _ _ => 7) (fun _ _ _ _ => 0)
      none 0 0 0 0 = 3 :=
  conv_zero_invocation_outputs_zero_point
    ⟨1, 1, 1, 1, 0, 0, 1, 1, 1, 1, 1, 7, 3, -10, 20⟩
    (fun _ => 123) (fun _ => -2) (fun _ _ _ _ => 7) (fun _ _ _ _ => 0) none
    (fun _ _ _ _ => rfl) (fun _ _ _ _ => rfl) (Or.inl rfl)
    (by norm_num) (by norm_num) (by norm_num) (by norm_num) 0 0 0 0

set_option maxRecDepth 10000 in
/-- C8: for all 256 byte values, unpacking the packed 4-bit byte into two
sign-extended signed values and re-packing the two nibbles reproduces the
byte, and each unpacked value is negative exactly when its nibble's
two's-complement sign bit is set. -/
theorem int4_unpack_pack_roundtrip :
    ∀ b : Fin 256,
      packNibbles (unpackLow b.val) (unpackHigh b.val) = b.val ∧
      (unpackLow b.val < 0 ↔ 8 ≤ b.val % 16) ∧
      (unpackHigh b.val < 0 ↔ 8 ≤ b.val / 16 % 16) := by
  decide
